import Mathlib

/-!
Verification of the action-sequence memory and execution engine of the
mcp-selenium server (src/src/lib/server.js and the SQLite-backed memory
module). The JavaScript source is embedded shallowly:

* the SQLite tables become lists of row structures inside `Mcp.Store`;
* the JSON value type stored in the `parameters` TEXT columns is kept
  abstract as a type parameter `π`; `JSON.stringify` / `JSON.parse` are
  external JS builtins and are passed in as functions `toS : π → String`
  and `ofS : String → Option π` (with a round-trip hypothesis where a
  theorem needs it);
* `new RegExp(p).test(u)` is an external builtin as well and is passed in
  as an oracle `re : String → String → Except String Bool` (`.error`
  models the exception thrown on an invalid pattern);
* `s.replace(new RegExp(pat, "g"), v)` is passed in as an oracle
  `rr : String → String → String → String`; the literal (metacharacter
  free) case is realised by the executable `replaceAllStr` below;
* the Selenium driver calls performed by `executeAction` are an oracle
  `drv : Nat → String → π → Except String String` giving the outcome of
  the i-th boundary call of a run.

Machine-checked facts about the JS string builtins that the source uses
(`String.prototype.includes`, `substring`) are modelled executably on
`List Char`.
-/

namespace Mcp

/-! ## JS string primitives -/

/-- `sub.isPrefixOf l`-style contiguous containment: JS
`hay.includes(sub)` on the character level. -/
def containsSeq (sub : List Char) : List Char → Bool
  | [] => sub.isEmpty
  | c :: rest => sub.isPrefixOf (c :: rest) || containsSeq sub rest

/-- JS `hay.includes(sub)`. -/
def jsIncludes (hay sub : String) : Bool :=
  containsSeq sub.data hay.data

/-- One left-to-right scan replacing every occurrence of one of the
literal alternatives `alts` (tried in order at each position, as a JS
regex alternation does) by `rep`.  The `skip` counter consumes the rest
of a match that has already been emitted, which makes the recursion
structural and keeps replacements non-overlapping, exactly as
`String.prototype.replace` with a `g` regex behaves: scanning resumes
after the matched text and the inserted replacement is never rescanned. -/
def scanReplace (alts : List (List Char)) (rep : List Char) : List Char → Nat → List Char
  | [], _ => []
  | _ :: rest, k + 1 => scanReplace alts rep rest k
  | c :: rest, 0 =>
    match alts.find? (fun p => !p.isEmpty && p.isPrefixOf (c :: rest)) with
    | some p => rep ++ scanReplace alts rep rest (p.length - 1)
    | none => c :: scanReplace alts rep rest 0

/-- JS `s.replace(new RegExp(pat, "g"), rep)` for a pattern that the
regex engine treats literally (no metacharacters) and a replacement
without `$` escape sequences. -/
def replaceAllStr (pat rep s : String) : String :=
  String.mk (scanReplace [pat.data] rep.data s.data 0)

/-! ## Site matcher (memory.js, `getElementMappingsForSite`)

The source guards regex matching with
`MAX_PATTERN_LENGTH = 200` and the heuristic denylist regex
`/(\+\+|\*\*|\{\d+,\d*\}\+|\{\d+,\d*\}\*|\(\?[^)]*\)\+|\(\?[^)]*\)\*)/`.
`dangerousShape` is an executable transcription of `.test` with that
regex: it scans every position of the pattern and tries the six
alternatives in order.  Greedy matching of `\d+`, `\d*` and `[^)]*` is
exact here (no backtracking is ever needed) because the character that
must follow each of these pieces (`,`, `\x7d`, `)`) is excluded from the
repeated class. -/

def isDigitCh (c : Char) : Bool :=
  '0' ≤ c && c ≤ '9'

/-- Does `\d+,\d*\x7d(\+|\*)` match at the start of `rest` (the part after a
literal `\x7b`)? -/
def quantBraceAt (rest : List Char) : Bool :=
  match rest with
  | [] => false
  | d :: _ =>
    isDigitCh d &&
      (match rest.dropWhile isDigitCh with
       | ',' :: rest2 =>
         (match rest2.dropWhile isDigitCh with
          | '\x7d' :: q :: _ => q == '+' || q == '*'
          | _ => false)
       | _ => false)

/-- Does one of the six dangerous alternatives match at the start of the
given suffix? -/
def dangerousAt : List Char → Bool
  | '+' :: '+' :: _ => true
  | '*' :: '*' :: _ => true
  | '\x7b' :: rest => quantBraceAt rest
  | '(' :: '?' :: rest =>
    (match rest.dropWhile (fun c => !(c == ')')) with
     | ')' :: q :: _ => q == '+' || q == '*'
     | _ => false)
  | _ => false

def dangerousScan : List Char → Bool
  | [] => false
  | c :: rest => dangerousAt (c :: rest) || dangerousScan rest

/-- `dangerousPattern.test(p)` from the source. -/
def dangerousShape (p : String) : Bool :=
  dangerousScan p.data

def MAX_PATTERN_LENGTH : Nat := 200

/-- The per-mapping body of `getElementMappingsForSite`'s filter.  The
whole body is wrapped in `try/catch`; the only statements that can throw
are the `new RegExp` construction and `.test`, both abstracted by the
oracle `re` (`.error` = exception), so the `catch` branch is exactly the
`.error` case. -/
def siteMatch (re : String → String → Except String Bool) (pat url : String) : Bool :=
  if MAX_PATTERN_LENGTH < pat.length then
    jsIncludes url (pat.take MAX_PATTERN_LENGTH)
  else if dangerousShape pat then
    jsIncludes url pat
  else
    match re pat url with
    | .ok b => b
    | .error _ => jsIncludes url pat

/-! ## Persistent store (memory.js `MemoryStore`)

The four SQLite tables become lists of rows.  The `parameters` TEXT columns
hold `JSON.stringify` of a JSON value; since the only writers serialize
and the only readers parse, the model stores the value itself (of the
abstract JSON type `π`).  `CURRENT_TIMESTAMP` is passed in as a `now`
argument.  `AUTOINCREMENT` ids are modelled by `nextSeqId`.  The SQL
`UNIQUE` constraint on `action_sequences.name` makes `WHERE name = ?`
single-row; the model uses `find?` (first match), which agrees with it on
every state the store itself can produce. -/

/-- A row of `action_sequences`. -/
structure SeqRow where
  id : Nat
  name : String
  description : String
  triggerPattern : String
  createdAt : Nat
  updatedAt : Nat
deriving DecidableEq

/-- A row of `sequence_actions` (the autoincrement id of the row itself is
never read back and is omitted). -/
structure ActRow (π : Type) where
  sequenceId : Nat
  stepOrder : Nat
  toolName : String
  parameters : π
deriving DecidableEq

/-- A row of `element_mappings` (timestamps omitted: never read back). -/
structure MapRow where
  sitePattern : String
  elementName : String
  locatorBy : String
  locatorValue : String
  description : String
deriving DecidableEq

/-- The object logged by `logExecution`: a regular action parameter
object, or the `\x7b completedSteps \x7d` object logged on interrupt. -/
inductive HParams (π : Type) where
  | params (p : π)
  | interrupted (completedSteps : Nat)
deriving DecidableEq

/-- A row of `execution_history`, newest rows first (`executed_at` is
modelled by the list position). -/
structure HistRow (π : Type) where
  sequenceName : Option String
  toolName : String
  parameters : HParams π
  success : Bool
  errorMessage : Option String
deriving DecidableEq

structure Store (π : Type) where
  nextSeqId : Nat
  sequences : List SeqRow
  seqActions : List (ActRow π)
  mappings : List MapRow
  history : List (HistRow π)
deriving DecidableEq

def Store.empty (π : Type) : Store π :=
  ⟨1, [], [], [], []⟩

/-- An action as handed to `saveSequence`: `(toolName, parameters)`. -/
structure ActionIn (π : Type) where
  toolName : String
  parameters : π
deriving DecidableEq

/-- An action as returned by `getSequence`. -/
structure ActionOut (π : Type) where
  toolName : String
  parameters : π
  stepOrder : Nat
deriving DecidableEq

/-- The object returned by `getSequence`. -/
structure SeqOut (π : Type) where
  id : Nat
  name : String
  description : String
  triggerPattern : String
  createdAt : Nat
  updatedAt : Nat
  actions : List (ActionOut π)
deriving DecidableEq

/-- `SELECT * FROM action_sequences WHERE name = ?` (single row by the
UNIQUE constraint). -/
def findSeq {π : Type} (s : Store π) (n : String) : Option SeqRow :=
  s.sequences.find? (fun r => r.name == n)

/-- Insertion sort by `step_order` (the `ORDER BY step_order` of
`getSequence`). -/
def insertByStep {π : Type} (r : ActRow π) : List (ActRow π) → List (ActRow π)
  | [] => [r]
  | x :: xs => if r.stepOrder ≤ x.stepOrder then r :: x :: xs else x :: insertByStep r xs

def sortByStep {π : Type} : List (ActRow π) → List (ActRow π)
  | [] => []
  | x :: xs => insertByStep x (sortByStep xs)

/-- `MemoryStore.getSequence`. -/
def getSequence {π : Type} (s : Store π) (n : String) : Option (SeqOut π) :=
  match findSeq s n with
  | none => none
  | some r =>
    some
      { id := r.id, name := r.name, description := r.description,
        triggerPattern := r.triggerPattern, createdAt := r.createdAt,
        updatedAt := r.updatedAt,
        actions :=
          (sortByStep (s.seqActions.filter (fun a => a.sequenceId == r.id))).map
            (fun a => { toolName := a.toolName, parameters := a.parameters,
                        stepOrder := a.stepOrder }) }

/-- The `INSERT ... ON CONFLICT(name) DO UPDATE` of `saveSequence`;
returns the updated store together with the value of the scalar subquery
`SELECT id FROM action_sequences WHERE name = ?` evaluated afterwards.
On conflict only `description`, `trigger_pattern` and `updated_at` are
overwritten; `id` and `created_at` are kept. -/
def upsertSeq {π : Type} (now : Nat) (n d g : String) (s : Store π) : Store π × Nat :=
  match findSeq s n with
  | some r =>
    ({ s with
        sequences :=
          s.sequences.map (fun x =>
            if x.name == n then
              { x with description := d, triggerPattern := g, updatedAt := now }
            else x) },
     r.id)
  | none =>
    ({ s with
        sequences := s.sequences ++ [⟨s.nextSeqId, n, d, g, now, now⟩],
        nextSeqId := s.nextSeqId + 1 },
     s.nextSeqId)

/-- The rows inserted by `actions.forEach((action, index) => insertAction.run(name, index + 1, ...))`. -/
def mkRows {π : Type} (sid : Nat) : Nat → List (ActionIn π) → List (ActRow π)
  | _, [] => []
  | k, a :: rest => ⟨sid, k + 1, a.toolName, a.parameters⟩ :: mkRows sid (k + 1) rest

/-- The action list `getSequence` yields for a freshly saved `acts`. -/
def outActions {π : Type} : Nat → List (ActionIn π) → List (ActionOut π)
  | _, [] => []
  | k, a :: rest => ⟨a.toolName, a.parameters, k + 1⟩ :: outActions (k + 1) rest

/-- `MemoryStore.saveSequence`: one `db.transaction` doing upsert, delete
of all prior action rows of the (post-upsert) id, and insert of the new
rows; then returns `this.getSequence(name)`. -/
def saveSequence {π : Type} (now : Nat) (n d g : String) (acts : List (ActionIn π))
    (s : Store π) : Store π × Option (SeqOut π) :=
  let upd := upsertSeq now n d g s
  let s2 :=
    { upd.1 with
        seqActions :=
          (upd.1.seqActions.filter (fun a => !(a.sequenceId == upd.2))) ++
            mkRows upd.2 0 acts }
  (s2, getSequence s2 n)

/-- `MemoryStore.deleteSequence`: `DELETE FROM action_sequences WHERE
name = ?`, with the schema's `ON DELETE CASCADE` removing the action rows
of every deleted sequence; returns `result.changes > 0`. -/
def deleteSequence {π : Type} (n : String) (s : Store π) : Store π × Bool :=
  let deleted := s.sequences.filter (fun r => r.name == n)
  ({ s with
      sequences := s.sequences.filter (fun r => !(r.name == n)),
      seqActions :=
        s.seqActions.filter (fun a => !(deleted.any (fun r => r.id == a.sequenceId))) },
   !deleted.isEmpty)

/-- `MemoryStore.logExecution`: appends one history row (newest first in
the model). -/
def logExecution {π : Type} (sn : Option String) (tool : String) (ps : HParams π)
    (succ : Bool) (err : Option String) (s : Store π) : Store π :=
  { s with history := ⟨sn, tool, ps, succ, err⟩ :: s.history }

/-- Insertion sort of the mappings by `site_pattern` (`ORDER BY
site_pattern`; character-wise order models SQLite's byte order on TEXT). -/
def patLe (m1 m2 : MapRow) : Bool :=
  !(decide (m2.sitePattern < m1.sitePattern))

def insertByPat (m : MapRow) : List MapRow → List MapRow
  | [] => [m]
  | x :: xs => if patLe m x then m :: x :: xs else x :: insertByPat m xs

def sortByPat : List MapRow → List MapRow
  | [] => []
  | x :: xs => insertByPat x (sortByPat xs)

/-- `MemoryStore.getElementMappingsForSite`: fetch all mappings ordered
by pattern, then keep those whose pattern matches the url under the
graduated `siteMatch` test. -/
def getElementMappingsForSite {π : Type} (re : String → String → Except String Bool)
    (s : Store π) (url : String) : List MapRow :=
  (sortByPat s.mappings).filter (fun m => siteMatch re m.sitePattern url)

/-! ## Recording session (server.js `start_recording` / `recordAction`)

`state.recordingSequence` is `null` or a string; the guards in the source
are JS truthiness tests (`if (state.recordingSequence)`), under which the
empty string counts as *not* recording. -/

/-- JS truthiness of a `string | null` value: `null` and `""` are falsy. -/
def jsTruthyStr : Option String → Bool
  | none => false
  | some s => !(s == "")

structure RecState (π : Type) where
  recordingSequence : Option String
  recordedActions : List (ActionIn π)
  recordingDescription : String
  recordingTrigger : String
deriving DecidableEq

inductive StartRecOutcome where
  | started
  | alreadyRecording (current : String)
deriving DecidableEq

/-- The `start_recording` tool: refuse if `state.recordingSequence` is
truthy, otherwise initialise the session with an empty captured-action
list. -/
def startRecording {π : Type} (name desc trig : String) (st : RecState π) :
    RecState π × StartRecOutcome :=
  if jsTruthyStr st.recordingSequence then
    (st, .alreadyRecording (st.recordingSequence.getD ""))
  else
    (⟨some name, [], desc, trig⟩, .started)

/-- The `recordAction` helper: append a snapshot of the action when a
truthy recording session is active, else do nothing. -/
def recordAction {π : Type} (tool : String) (ps : π) (st : RecState π) : RecState π :=
  if jsTruthyStr st.recordingSequence then
    { st with recordedActions := st.recordedActions ++ [⟨tool, ps⟩] }
  else st

/-! ## Variable substitution (server.js `run_sequence`, lines 787-792)

`let params = JSON.stringify(action.parameters);`
`for (const [key, value] of Object.entries(variables))`
`  params = params.replace(new RegExp(\x7b\x7b key \x7d\x7d, "g"), value);`
`params = JSON.parse(params);`

The per-key replacement primitive is the oracle `rr pat value s`, where
`pat` is the *regex source text* `"\x7b\x7b" ++ key ++ "\x7d\x7d"` handed
to `new RegExp`; for keys free of regex metacharacters (and values free
of `$` sequences) JS performs the literal global replacement
`replaceAllStr`. -/

def placeholder (k : String) : String :=
  "\x7b\x7b" ++ k ++ "\x7d\x7d"

def doubleBrace : String :=
  "\x7b\x7b"

/-- The serialized-blob part of the substitution: one global replace per
variable, in `Object.entries` order. -/
def substituteBlob (rr : String → String → String → String)
    (vars : List (String × String)) (blob : String) : String :=
  vars.foldl (fun s kv => rr (placeholder kv.1) kv.2 s) blob

/-- The spec-side description of the substitution ("a global textual
replace over the whole serialized blob"): literal replacement for every
variable, no regex interpretation of the key. -/
def substituteBlobSpec (vars : List (String × String)) (blob : String) : String :=
  vars.foldl (fun s kv => replaceAllStr (placeholder kv.1) kv.2 s) blob

/-- Full substitution on a parameters object: serialize, replace, parse
back (`none` = `JSON.parse` threw). -/
def substituteParams {π : Type} (rr : String → String → String → String)
    (toS : π → String) (ofS : String → Option π)
    (vars : List (String × String)) (p : π) : Option π :=
  ofS (substituteBlob rr vars (toS p))

/-! ## Sequence executor (server.js `run_sequence`, `executeAction`,
`interrupt_sequence`)

`state.runningSequence` / `state.interruptRequested` form `RunState`.
External interrupt requests (set by the `interrupt_sequence` tool while a
step's boundary call is awaited) are modelled by `interruptAt : Nat →
Bool`: `interruptAt i = true` means a request is pending when the loop
performs its check before step `i`.  Requests arriving after the last
check of a run are not modelled (they are unobservable in the claims).
The driver's answer to the i-th boundary call of the run is the oracle
`drv i toolName params`. -/

structure RunState where
  runningSequence : Option String
  interruptRequested : Bool
deriving DecidableEq

inductive RunOutcome where
  | notFound
  | completed (completedSteps : Nat) (results : List String)
  | interrupted (completedSteps : Nat) (results : List String)
  | failed (completedSteps : Nat) (results : List String)
  | errored (message : String)
deriving DecidableEq

/-- The dispatch table of `executeAction`: the eleven recognised tool
names. -/
def knownTools : List String :=
  ["navigate", "click_element", "send_keys", "find_element", "get_element_text",
   "hover", "double_click", "right_click", "press_key", "drag_and_drop",
   "upload_file"]

/-- `executeAction`: a recognised tool name defers to the driver; an
unrecognised one throws `Unknown action: ...` (the `default` branch). -/
def executeActionM {π : Type} (drv : Nat → String → π → Except String String)
    (i : Nat) (tool : String) (p : π) : Except String String :=
  if knownTools.contains tool then drv i tool p
  else .error ("Unknown action: " ++ tool)

/-- The substituted parameters of one action, as computed inside the run
loop. -/
def stepSub {π : Type} (rr : String → String → String → String)
    (toS : π → String) (ofS : String → Option π)
    (vars : List (String × String)) (a : ActionOut π) : Option π :=
  substituteParams rr toS ofS vars a.parameters

/-- The `for (const action of sequence.actions)` loop of `run_sequence`.
`i` is the index of the next action, `results` the accumulated result
strings and `completed` the `completedSteps` counter.  Exits reproduce the
source: interrupt check before anything else (clear marker and flag, log
one `INTERRUPTED` row, return partial results); substitution and
re-parse (a parse failure propagates to the tool's outer `catch`, which
clears the marker); dispatch, with a success logged and accumulated and a
failure logged, accumulated and terminal. -/
def runLoop {π : Type} (drv : Nat → String → π → Except String String)
    (rr : String → String → String → String)
    (toS : π → String) (ofS : String → Option π)
    (interruptAt : Nat → Bool) (vars : List (String × String)) (n : String) :
    List (ActionOut π) → Nat → Store π → List String → Nat →
    Store π × RunState × RunOutcome
  | [], _, store, results, completed =>
    (store, ⟨none, false⟩, .completed completed results)
  | a :: rest, i, store, results, completed =>
    if interruptAt i then
      (logExecution (some n) "INTERRUPTED" (.interrupted completed) false
         (some "User interrupted sequence") store,
       ⟨none, false⟩, .interrupted completed results)
    else
      match stepSub rr toS ofS vars a with
      | none => (store, ⟨none, false⟩, .errored "Error running sequence")
      | some q =>
        match executeActionM drv i a.toolName q with
        | .ok r =>
          runLoop drv rr toS ofS interruptAt vars n rest (i + 1)
            (logExecution (some n) a.toolName (.params q) true none store)
            (results ++ ["✓ " ++ a.toolName ++ ": " ++ r])
            (completed + 1)
        | .error m =>
          (logExecution (some n) a.toolName (.params q) false (some m) store,
           ⟨none, false⟩, .failed completed (results ++ ["✗ " ++ a.toolName ++ ": " ++ m]))

/-- The `run_sequence` tool.  Note: there is no already-running guard in
the source — the running marker and the interrupt flag are simply
overwritten before the loop starts, so the incoming `rs` is never
consulted once the sequence exists. -/
def runSequence {π : Type} (drv : Nat → String → π → Except String String)
    (rr : String → String → String → String)
    (toS : π → String) (ofS : String → Option π)
    (interruptAt : Nat → Bool) (store : Store π) (rs : RunState)
    (name : String) (vars : List (String × String)) :
    Store π × RunState × RunOutcome :=
  match getSequence store name with
  | none => (store, rs, .notFound)
  | some seq => runLoop drv rr toS ofS interruptAt vars name seq.actions 0 store [] 0

inductive InterruptOutcome where
  | notRunning
  | requested (name : String)
deriving DecidableEq

/-- The `interrupt_sequence` tool: sets the flag only when
`state.runningSequence` is truthy, and returns immediately. -/
def interruptSequence (rs : RunState) : RunState × InterruptOutcome :=
  if jsTruthyStr rs.runningSequence then
    ({ rs with interruptRequested := true }, .requested (rs.runningSequence.getD ""))
  else (rs, .notRunning)

/-! ## Statement-level artefacts

Expected history rows / result strings for a successfully executed prefix
of a run (`qr i` = the substituted parameters and driver result of step
`i`), and the concrete oracle instances used by counterexamples. -/

/-- History rows produced by steps `i, i+1, …` over `acts`, newest first
(so the row of the *last* listed step is at the head end of the run's
history growth). -/
def okRows {π : Type} (n : String) (qr : Nat → π × String) :
    Nat → List (ActionOut π) → List (HistRow π)
  | _, [] => []
  | i, a :: rest =>
    okRows n qr (i + 1) rest ++ [⟨some n, a.toolName, .params (qr i).1, true, none⟩]

/-- Result strings produced by steps `i, i+1, …` over `acts`, in step
order. -/
def okResults {π : Type} (qr : Nat → π × String) :
    Nat → List (ActionOut π) → List String
  | _, [] => []
  | i, a :: rest => ("✓ " ++ a.toolName ++ ": " ++ (qr i).2) :: okResults qr (i + 1) rest

/-- The sequence id `saveSequence` ends up writing under: the id of the
already-present row on conflict, else the fresh autoincrement id. -/
def saveId {π : Type} (s : Store π) (n : String) : Nat :=
  match findSeq s n with
  | some r => r.id
  | none => s.nextSeqId

/-- The `created_at` a sequence row carries after `saveSequence`:
preserved on conflict, the save's own timestamp on a fresh insert. -/
def saveCreatedAt {π : Type} (s : Store π) (n : String) (now : Nat) : Nat :=
  match findSeq s n with
  | some r => r.createdAt
  | none => now

/-- JS behaviour of the regex test for the concrete pattern `(a+)+`:
`new RegExp("(a+)+")` compiles, and `.test(u)` holds exactly when `u`
contains at least one `a`.  Other patterns are irrelevant to the
counterexample and are mapped to an exception. -/
def reNested (pat url : String) : Except String Bool :=
  if pat == "(a+)+" then .ok (url.data.any (fun c => c == 'a')) else .error "not modelled"

/-- JS behaviour of `s.replace(new RegExp("\x7b\x7ba|b\x7d\x7d", "g"), rep)` for a
`$`-free `rep`: because `|` is a regex operator, the compiled regex is the
alternation of the two literals `"\x7b\x7ba"` and `"b\x7d\x7d"`, tried in this order
at each position of the left-to-right scan.  Patterns other than the one
built from the key `"a|b"` fall back to the literal replacement. -/
def rrAltAB (pat rep s : String) : String :=
  if pat == placeholder "a|b" then
    String.mk (scanReplace [['\x7b', '\x7b', 'a'], ['b', '\x7d', '\x7d']] rep.data s.data 0)
  else replaceAllStr pat rep s

/-- `JSON.stringify(\x7b text: "b\x7d\x7d" \x7d)`: a serialized parameter object
containing no `\x7b\x7b` anywhere. -/
def blobC : String := "\x7b\"text\":\"b\x7d\x7d\"\x7d"

/-- A small concrete store (one saved sequence with one action), used by
witnesses. -/
def storeW : Store Unit :=
  (saveSequence 0 "s" "d" "g" [⟨"navigate", ()⟩] (Store.empty Unit)).1

/-- A concrete store whose sequence has a second, unrecognised tool,
used by witnesses. -/
def storeW2 : Store Unit :=
  (saveSequence 0 "s" "d" "g" [⟨"navigate", ()⟩, ⟨"bogus", ()⟩] (Store.empty Unit)).1

/-! ## String lemmas -/

theorem scanReplace_single_id (pat rep : List Char) :
    ∀ l : List Char, containsSeq pat l = false → scanReplace [pat] rep l 0 = l := by
  intro l
  induction l with
  | nil => intro _; rfl
  | cons c rest ih =>
    intro h
    simp only [containsSeq, Bool.or_eq_false_iff] at h
    obtain ⟨h1, h2⟩ := h
    simp only [scanReplace, List.find?, h1, Bool.and_false]
    exact congrArg (c :: ·) (ih h2)

theorem containsSeq_of_leading {a pat : List Char} (hpre : a <+: pat) :
    ∀ l : List Char, containsSeq pat l = true → containsSeq a l = true := by
  intro l
  induction l with
  | nil =>
    intro h
    simp only [containsSeq, List.isEmpty_iff] at h ⊢
    subst h
    exact List.prefix_nil.mp hpre
  | cons c rest ih =>
    intro h
    simp only [containsSeq, Bool.or_eq_true] at h ⊢
    rcases h with h | h
    · exact Or.inl (List.isPrefixOf_iff_prefix.mpr
        (hpre.trans (List.isPrefixOf_iff_prefix.mp h)))
    · exact Or.inr (ih h)

theorem jsIncludes_placeholder_of_doubleBrace {blob : String} (k : String)
    (h : jsIncludes blob doubleBrace = false) :
    jsIncludes blob (placeholder k) = false := by
  unfold jsIncludes at h ⊢
  by_contra hc
  rw [Bool.not_eq_false] at hc
  have hpre : doubleBrace.data <+: (placeholder k).data := by
    have : placeholder k = doubleBrace ++ (k ++ "\x7d\x7d") := by
      simp [placeholder, doubleBrace, String.append_assoc]
    rw [this, String.data_append]
    exact List.prefix_append _ _
  rw [containsSeq_of_leading hpre _ hc] at h
  exact Bool.true_eq_false.mp h

theorem replaceAllStr_id {pat blob : String} (rep : String)
    (h : jsIncludes blob pat = false) : replaceAllStr pat rep blob = blob := by
  unfold replaceAllStr
  rw [scanReplace_single_id _ _ _ h]

/-- Under literal replacement behaviour of the oracle, the substitution
leaves a blob containing none of the supplied placeholders unchanged. -/
theorem substituteBlob_id (rr : String → String → String → String)
    (vars : List (String × String)) (blob : String)
    (hlit : ∀ kv ∈ vars, ∀ s, rr (placeholder kv.1) kv.2 s =
      replaceAllStr (placeholder kv.1) kv.2 s)
    (h : ∀ kv ∈ vars, jsIncludes blob (placeholder kv.1) = false) :
    substituteBlob rr vars blob = blob := by
  induction vars with
  | nil => rfl
  | cons kv rest ih =>
    have hstep : rr (placeholder kv.1) kv.2 blob = blob := by
      rw [hlit kv (List.mem_cons_self kv rest) blob,
        replaceAllStr_id kv.2 (h kv (List.mem_cons_self kv rest))]
    show substituteBlob rr rest (rr (placeholder kv.1) kv.2 blob) = blob
    rw [hstep]
    exact ih (fun x hx s => hlit x (List.mem_cons_of_mem kv hx) s)
      (fun x hx => h x (List.mem_cons_of_mem kv hx))

/-- Under literal replacement behaviour of the oracle, the substitution
is exactly the textual replacement the spec describes. -/
theorem substituteBlob_eq_spec (rr : String → String → String → String)
    (vars : List (String × String)) :
    ∀ blob : String,
      (∀ kv ∈ vars, ∀ s, rr (placeholder kv.1) kv.2 s =
        replaceAllStr (placeholder kv.1) kv.2 s) →
      substituteBlob rr vars blob = substituteBlobSpec vars blob := by
  induction vars with
  | nil => intro blob _; rfl
  | cons kv rest ih =>
    intro blob hlit
    show substituteBlob rr rest (rr (placeholder kv.1) kv.2 blob) =
      substituteBlobSpec rest (replaceAllStr (placeholder kv.1) kv.2 blob)
    rw [hlit kv (List.mem_cons_self kv rest) blob]
    exact ih _ (fun x hx s => hlit x (List.mem_cons_of_mem kv hx) s)

/-! ## Site-matcher claims (C2, C10) -/

theorem mem_insertByPat {m x : MapRow} :
    ∀ l : List MapRow, m ∈ insertByPat x l ↔ m = x ∨ m ∈ l := by
  intro l
  induction l with
  | nil => simp [insertByPat]
  | cons y ys ih =>
    by_cases hc : patLe x y = true
    · simp [insertByPat, hc, List.mem_cons]
    · simp only [insertByPat, if_neg hc, List.mem_cons, ih, List.mem_cons]
      tauto

theorem mem_sortByPat {m : MapRow} :
    ∀ l : List MapRow, m ∈ sortByPat l ↔ m ∈ l := by
  intro l
  induction l with
  | nil => simp [sortByPat]
  | cons x xs ih =>
    simp only [sortByPat, mem_insertByPat, ih, List.mem_cons]

/-- C2 counterexample: the claim (and the spec example) says that the
pattern `(a+)+` has the dangerous shape, is matched by plain substring
containment and is never compiled as a regex.  In the source, the
denylist regex `/(\+\+|\*\*|\{\d+,\d*\}\+|\{\d+,\d*\}\*|\(\?[^)]*\)\+|\(\?[^)]*\)\*)/`
does *not* match `(a+)+` (none of its six alternatives occurs in that
string), so the pattern *is* handed to `new RegExp` and tested: against
the url `https://banana.example` the compiled regex matches (the url
contains an `a`) although the url does not contain the pattern text as a
substring. -/
theorem C2_counterexample :
    dangerousShape "(a+)+" = false ∧
    siteMatch reNested "(a+)+" "https://banana.example" = true ∧
    jsIncludes "https://banana.example" "(a+)+" = false := by
  decide

/-- C2 (amended): the graduated matcher, with the dangerous shape being
the source's actual denylist (`dangerousShape`: an occurrence of `++`,
`**`, `\x7bm,n?\x7d+`, `\x7bm,n?\x7d*`, `(?…)+` or `(?…)*`) rather than every
nested-quantifier pattern.  Over-long and dangerous patterns are decided by
substring containment for *every* regex oracle (so the pattern is never
compiled); otherwise the compiled regex decides, and a compilation error
degrades to substring containment. -/
theorem C2_amended (pat url : String) :
    (MAX_PATTERN_LENGTH < pat.length →
      ∀ re, siteMatch re pat url = jsIncludes url (pat.take MAX_PATTERN_LENGTH)) ∧
    (pat.length ≤ MAX_PATTERN_LENGTH → dangerousShape pat = true →
      ∀ re, siteMatch re pat url = jsIncludes url pat) ∧
    (pat.length ≤ MAX_PATTERN_LENGTH → dangerousShape pat = false →
      ∀ re b, re pat url = Except.ok b → siteMatch re pat url = b) ∧
    (pat.length ≤ MAX_PATTERN_LENGTH → dangerousShape pat = false →
      ∀ re e, re pat url = Except.error e →
        siteMatch re pat url = jsIncludes url pat) := by
  refine ⟨?_, ?_, ?_, ?_⟩
  · intro h1 re
    simp [siteMatch, h1]
  · intro h1 h2 re
    simp [siteMatch, Nat.not_lt.mpr h1, h2]
  · intro h1 h2 re b hre
    simp [siteMatch, Nat.not_lt.mpr h1, h2, hre]
  · intro h1 h2 re e hre
    simp [siteMatch, Nat.not_lt.mpr h1, h2, hre]

theorem C2_amended_witness :
    siteMatch (fun _ _ => Except.ok true) "github\\.com" "https://github.com/login" = true :=
  (C2_amended "github\\.com" "https://github.com/login").2.2.1 (by decide) (by decide)
    (fun _ _ => Except.ok true) true rfl

/-- C10: for every regex oracle — including oracles that throw on every
pattern — `getElementMappingsForSite` returns a plain list characterised
as the mappings whose pattern matches, and the `catch` branch degrades a
throwing per-mapping regex test to plain substring containment. -/
theorem C10_never_throws {π : Type} (re : String → String → Except String Bool)
    (s : Store π) (url : String) :
    (∀ m, m ∈ getElementMappingsForSite re s url ↔
      m ∈ s.mappings ∧ siteMatch re m.sitePattern url = true) ∧
    (∀ pat u e, pat.length ≤ MAX_PATTERN_LENGTH → dangerousShape pat = false →
      re pat u = Except.error e → siteMatch re pat u = jsIncludes u pat) := by
  constructor
  · intro m
    rw [getElementMappingsForSite, List.mem_filter, mem_sortByPat]
  · intro pat u e h1 h2 hre
    simp [siteMatch, Nat.not_lt.mpr h1, h2, hre]

theorem C10_never_throws_witness :
    (⟨"github", "login", "css", ".x", ""⟩ : MapRow) ∈
      getElementMappingsForSite (fun _ _ => Except.error "thrown")
        { Store.empty Unit with mappings := [⟨"github", "login", "css", ".x", ""⟩] }
        "https://github.com/login" :=
  ((C10_never_throws (fun _ _ => Except.error "thrown")
      { Store.empty Unit with mappings := [⟨"github", "login", "css", ".x", ""⟩] }
      "https://github.com/login").1 _).mpr ⟨by decide, by decide⟩

/-! ## Recording-session claim (C9) -/

/-- C9 counterexample: the already-recording guard is the JS truthiness
test `if (state.recordingSequence)`, and the empty string is falsy.  So a
session started under the name `""` (accepted: the first call returns the
started outcome and sets the field) does not protect itself: a second
`start_recording` also succeeds and replaces the session's name — the
claimed refusal and frame preservation fail. -/
theorem C9_counterexample :
    (startRecording (π := Unit) "" "d" "t" ⟨none, [], "", ""⟩).2 = .started ∧
    (startRecording (π := Unit) "x" "d2" "t2"
        (startRecording (π := Unit) "" "d" "t" ⟨none, [], "", ""⟩).1).2 = .started ∧
    (startRecording (π := Unit) "x" "d2" "t2"
        (startRecording (π := Unit) "" "d" "t" ⟨none, [], "", ""⟩).1).1.recordingSequence =
      some "x" := by
  decide

/-- C9 (amended): while a session with a *non-empty* name is recording, a
further `start_recording` refuses with the already-recording outcome and
returns the state bit-for-bit unchanged (name, captured actions,
description and trigger all preserved). -/
theorem C9_no_overwrite {π : Type} (st : RecState π) (n name desc trig : String)
    (h1 : st.recordingSequence = some n) (h2 : ¬n = "") :
    startRecording name desc trig st = (st, .alreadyRecording n) := by
  unfold startRecording
  rw [h1]
  simp [jsTruthyStr, h2]

theorem C9_no_overwrite_witness :
    startRecording (π := Unit) "x" "d" "t" ⟨some "s", [⟨"navigate", ()⟩], "", ""⟩ =
      (⟨some "s", [⟨"navigate", ()⟩], "", ""⟩, .alreadyRecording "s") :=
  C9_no_overwrite ⟨some "s", [⟨"navigate", ()⟩], "", ""⟩ "s" "x" "d" "t" rfl (by decide)

/-! ## Already-running claim (C1) -/

/-- C1 counterexample: `run_sequence` contains no already-running guard at
all.  Invoked while the running marker is set to another sequence, the
run does not fail: it executes the step of the requested sequence
(driver called, success logged) and returns the completed outcome. -/
theorem C1_counterexample :
    (runSequence (π := Unit) (fun _ _ _ => Except.ok "done") (fun _ _ s => s)
        (fun _ => "p") (fun _ => some ()) (fun _ => false)
        ((saveSequence 0 "s" "" "" [⟨"navigate", ()⟩] (Store.empty Unit)).1)
        ⟨some "other", false⟩ "s" []).2.2 = .completed 1 ["✓ navigate: done"] ∧
    (runSequence (π := Unit) (fun _ _ _ => Except.ok "done") (fun _ _ s => s)
        (fun _ => "p") (fun _ => some ()) (fun _ => false)
        ((saveSequence 0 "s" "" "" [⟨"navigate", ()⟩] (Store.empty Unit)).1)
        ⟨some "other", false⟩ "s" []).1.history =
      [⟨some "s", "navigate", .params (), true, none⟩] := by
  decide

/-- C1 (amended): `run_sequence` performs no already-running check.  As
soon as the sequence exists, the incoming run state — running marker set
or not, stale interrupt flag or not — is discarded (the source overwrites
both fields before the loop), so the run proceeds identically whatever
run was supposedly in progress. -/
theorem C1_no_guard {π : Type} (drv : Nat → String → π → Except String String)
    (rr : String → String → String → String) (toS : π → String)
    (ofS : String → Option π) (iA : Nat → Bool) (store : Store π)
    (rs rs' : RunState) (name : String) (vars : List (String × String))
    (seq : SeqOut π) (h : getSequence store name = some seq) :
    runSequence drv rr toS ofS iA store rs name vars =
      runSequence drv rr toS ofS iA store rs' name vars := by
  unfold runSequence
  rw [h]

theorem C1_no_guard_witness :
    runSequence (π := Unit) (fun _ _ _ => Except.ok "done") (fun _ _ s => s)
        (fun _ => "p") (fun _ => some ()) (fun _ => false)
        ((saveSequence 0 "s" "" "" [⟨"navigate", ()⟩] (Store.empty Unit)).1)
        ⟨some "other", true⟩ "s" [] =
      runSequence (π := Unit) (fun _ _ _ => Except.ok "done") (fun _ _ s => s)
        (fun _ => "p") (fun _ => some ()) (fun _ => false)
        ((saveSequence 0 "s" "" "" [⟨"navigate", ()⟩] (Store.empty Unit)).1)
        ⟨none, false⟩ "s" [] :=
  C1_no_guard _ _ _ _ _ _ _ _ "s" [] _ rfl

/-! ## Store lemmas -/

theorem filter_sid_of_filter_not {π : Type} (sid : Nat) (l : List (ActRow π)) :
    (l.filter (fun a => !(a.sequenceId == sid))).filter
      (fun a => a.sequenceId == sid) = [] := by
  induction l with
  | nil => rfl
  | cons a l ih =>
    by_cases h : (a.sequenceId == sid) = true
    · simp [List.filter_cons, h, ih]
    · simp [List.filter_cons, h, ih]

theorem mkRows_filter_self {π : Type} (sid : Nat) (acts : List (ActionIn π)) :
    ∀ k, (mkRows sid k acts).filter (fun a => a.sequenceId == sid) =
      mkRows sid k acts := by
  induction acts with
  | nil => intro k; rfl
  | cons a rest ih =>
    intro k
    simp only [mkRows, List.filter_cons]
    rw [if_pos (by simp)]
    rw [ih (k + 1)]

theorem insertByStep_mkRows {π : Type} (sid : Nat) (r : ActRow π)
    (acts : List (ActionIn π)) (k : Nat) (h : r.stepOrder ≤ k + 1) :
    insertByStep r (mkRows sid k acts) = r :: mkRows sid k acts := by
  cases acts with
  | nil => rfl
  | cons a rest =>
    simp only [mkRows, insertByStep]
    rw [if_pos h]

theorem sortByStep_mkRows {π : Type} (sid : Nat) (acts : List (ActionIn π)) :
    ∀ k, sortByStep (mkRows sid k acts) = mkRows sid k acts := by
  induction acts with
  | nil => intro k; rfl
  | cons a rest ih =>
    intro k
    simp only [mkRows, sortByStep]
    rw [ih (k + 1), insertByStep_mkRows sid _ rest (k + 1) (by simp)]

theorem mkRows_map_out {π : Type} (sid : Nat) (acts : List (ActionIn π)) :
    ∀ k, (mkRows sid k acts).map
        (fun a => ({ toolName := a.toolName, parameters := a.parameters,
                     stepOrder := a.stepOrder } : ActionOut π)) =
      outActions k acts := by
  induction acts with
  | nil => intro k; rfl
  | cons a rest ih =>
    intro k
    simp only [mkRows, outActions, List.map_cons, ih (k + 1)]

theorem save_actions_eq {π : Type} (sid : Nat) (old : List (ActRow π))
    (acts : List (ActionIn π)) :
    (sortByStep ((((old.filter (fun a => !(a.sequenceId == sid))) ++
          mkRows sid 0 acts)).filter (fun a => a.sequenceId == sid))).map
      (fun a => ({ toolName := a.toolName, parameters := a.parameters,
                   stepOrder := a.stepOrder } : ActionOut π)) =
      outActions 0 acts := by
  rw [List.filter_append, filter_sid_of_filter_not, List.nil_append,
    mkRows_filter_self, sortByStep_mkRows, mkRows_map_out]

theorem find?_update {l : List SeqRow} {n : String} {r : SeqRow} (d g : String)
    (now : Nat) (h : l.find? (fun x => x.name == n) = some r) :
    (l.map (fun x =>
        if x.name == n then
          { x with description := d, triggerPattern := g, updatedAt := now }
        else x)).find? (fun x => x.name == n) =
      some { r with description := d, triggerPattern := g, updatedAt := now } := by
  induction l with
  | nil => simp at h
  | cons a l ih =>
    by_cases hc : (a.name == n) = true
    · rw [@List.find?_cons_of_pos _ (fun x : SeqRow => x.name == n) a l hc] at h
      injection h with h
      subst h
      simp only [List.map_cons, if_pos hc]
      exact @List.find?_cons_of_pos _ (fun x : SeqRow => x.name == n) _ _ (by simpa using hc)
    · rw [@List.find?_cons_of_neg _ (fun x : SeqRow => x.name == n) a l hc] at h
      simp only [List.map_cons, if_neg hc]
      rw [@List.find?_cons_of_neg _ (fun x : SeqRow => x.name == n) _ _ (by simpa using hc)]
      exact ih h

example {π : Type} (now : Nat) (n d g : String)
    (acts : List (ActionIn π)) (s : Store π) (hfs : findSeq s n = none) :
    (saveSequence now n d g acts s).1 =
      { nextSeqId := s.nextSeqId + 1,
        sequences := s.sequences ++ [⟨s.nextSeqId, n, d, g, now, now⟩],
        seqActions := (s.seqActions.filter (fun a => !(a.sequenceId == s.nextSeqId))) ++
          mkRows s.nextSeqId 0 acts,
        mappings := s.mappings, history := s.history } := by
  simp only [saveSequence, upsertSeq, hfs]

example {π : Type} (now : Nat) (n d g : String) (r : SeqRow)
    (acts : List (ActionIn π)) (s : Store π) (hfs : findSeq s n = some r) :
    (saveSequence now n d g acts s).1 =
      { nextSeqId := s.nextSeqId,
        sequences := s.sequences.map (fun x =>
          if x.name == n then
            { x with description := d, triggerPattern := g, updatedAt := now }
          else x),
        seqActions := (s.seqActions.filter (fun a => !(a.sequenceId == r.id))) ++
          mkRows r.id 0 acts,
        mappings := s.mappings, history := s.history } := by
  simp only [saveSequence, upsertSeq, hfs]

theorem saveSequence_fresh_store {π : Type} (now : Nat) (n d g : String)
    (acts : List (ActionIn π)) (s : Store π) (hfs : findSeq s n = none) :
    (saveSequence now n d g acts s).1 =
      { nextSeqId := s.nextSeqId + 1,
        sequences := s.sequences ++ [⟨s.nextSeqId, n, d, g, now, now⟩],
        seqActions := (s.seqActions.filter (fun a => !(a.sequenceId == s.nextSeqId))) ++
          mkRows s.nextSeqId 0 acts,
        mappings := s.mappings, history := s.history } := by
  simp only [saveSequence, upsertSeq, hfs]

theorem saveSequence_found_store {π : Type} (now : Nat) (n d g : String) (r : SeqRow)
    (acts : List (ActionIn π)) (s : Store π) (hfs : findSeq s n = some r) :
    (saveSequence now n d g acts s).1 =
      { nextSeqId := s.nextSeqId,
        sequences := s.sequences.map (fun x =>
          if x.name == n then
            { x with description := d, triggerPattern := g, updatedAt := now }
          else x),
        seqActions := (s.seqActions.filter (fun a => !(a.sequenceId == r.id))) ++
          mkRows r.id 0 acts,
        mappings := s.mappings, history := s.history } := by
  simp only [saveSequence, upsertSeq, hfs]


theorem getSequence_of_find {π : Type} (s : Store π) (n : String) (r : SeqRow)
    (h : findSeq s n = some r) :
    getSequence s n =
      some ⟨r.id, r.name, r.description, r.triggerPattern, r.createdAt, r.updatedAt,
        (sortByStep (s.seqActions.filter (fun a => a.sequenceId == r.id))).map
          (fun a => { toolName := a.toolName, parameters := a.parameters,
                      stepOrder := a.stepOrder })⟩ := by
  simp only [getSequence, h]

theorem saveSequence_spec {π : Type} (now : Nat) (n d g : String)
    (acts : List (ActionIn π)) (s : Store π) :
    findSeq (saveSequence now n d g acts s).1 n =
      some ⟨saveId s n, n, d, g, saveCreatedAt s n now, now⟩ ∧
    getSequence (saveSequence now n d g acts s).1 n =
      some ⟨saveId s n, n, d, g, saveCreatedAt s n now, now, outActions 0 acts⟩ ∧
    (saveSequence now n d g acts s).2 =
      some ⟨saveId s n, n, d, g, saveCreatedAt s n now, now, outActions 0 acts⟩ := by
  have hpair : (saveSequence now n d g acts s).2 =
      getSequence (saveSequence now n d g acts s).1 n := rfl
  cases hfs : findSeq s n with
  | none =>
    have hid : saveId s n = s.nextSeqId := by simp [saveId, hfs]
    have hcr : saveCreatedAt s n now = now := by simp [saveCreatedAt, hfs]
    have hst := saveSequence_fresh_store now n d g acts s hfs
    have hfs2 : List.find? (fun r => r.name == n) s.sequences = none := hfs
    have hfind : findSeq (saveSequence now n d g acts s).1 n =
        some ⟨s.nextSeqId, n, d, g, now, now⟩ := by
      rw [hst]
      simp only [findSeq]
      rw [List.find?_append, hfs2]
      simp
    have hget : getSequence (saveSequence now n d g acts s).1 n =
        some ⟨s.nextSeqId, n, d, g, now, now, outActions 0 acts⟩ := by
      rw [getSequence_of_find _ _ _ hfind, hst]
      show some (⟨s.nextSeqId, n, d, g, now, now,
        (sortByStep (((s.seqActions.filter (fun a => !(a.sequenceId == s.nextSeqId))) ++
            mkRows s.nextSeqId 0 acts).filter
          (fun a => a.sequenceId == s.nextSeqId))).map
          (fun a => { toolName := a.toolName, parameters := a.parameters,
                      stepOrder := a.stepOrder })⟩ : SeqOut π) = _
      rw [save_actions_eq]
    rw [hid, hcr]
    exact ⟨hfind, hget, by rw [hpair, hget]⟩
  | some r =>
    have hname : r.name = n := by
      have := List.find?_some hfs
      simpa using this
    have hid : saveId s n = r.id := by simp [saveId, hfs]
    have hcr : saveCreatedAt s n now = r.createdAt := by simp [saveCreatedAt, hfs]
    have hst := saveSequence_found_store now n d g r acts s hfs
    have hfind : findSeq (saveSequence now n d g acts s).1 n =
        some ⟨r.id, n, d, g, r.createdAt, now⟩ := by
      rw [hst]
      simp only [findSeq]
      rw [find?_update d g now hfs, hname]
    have hget : getSequence (saveSequence now n d g acts s).1 n =
        some ⟨r.id, n, d, g, r.createdAt, now, outActions 0 acts⟩ := by
      rw [getSequence_of_find _ _ _ hfind, hst]
      show some (⟨r.id, n, d, g, r.createdAt, now,
        (sortByStep (((s.seqActions.filter (fun a => !(a.sequenceId == r.id))) ++
            mkRows r.id 0 acts).filter
          (fun a => a.sequenceId == r.id))).map
          (fun a => { toolName := a.toolName, parameters := a.parameters,
                      stepOrder := a.stepOrder })⟩ : SeqOut π) = _
      rw [save_actions_eq]
    rw [hid, hcr]
    exact ⟨hfind, hget, by rw [hpair, hget]⟩

/-! ## Persistent-store claims (C3, C4, C5) -/

/-- C3: re-saving under the same name fully replaces the action list
(`getSequence` then returns exactly the actions of the second save, in
dense 1-based step order), preserves `createdAt` from the first save and
sets `updatedAt` to the second save's timestamp.  The source performs the
upsert, the delete of the old action rows and the inserts inside one
`db.transaction` call, so the transition modelled here is the only state
a reader can ever observe. -/
theorem C3_resave_replaces {π : Type} (store : Store π) (n d1 g1 d2 g2 : String)
    (l1 l2 : List (ActionIn π)) (t1 t2 : Nat) (hfresh : findSeq store n = none) :
    getSequence (saveSequence t2 n d2 g2 l2 (saveSequence t1 n d1 g1 l1 store).1).1 n =
      some ⟨store.nextSeqId, n, d2, g2, t1, t2, outActions 0 l2⟩ := by
  have h1 := (saveSequence_spec t1 n d1 g1 l1 store).1
  have h2 := (saveSequence_spec t2 n d2 g2 l2 (saveSequence t1 n d1 g1 l1 store).1).2.1
  have hid1 : saveId store n = store.nextSeqId := by simp [saveId, hfresh]
  have hcr1 : saveCreatedAt store n t1 = t1 := by simp [saveCreatedAt, hfresh]
  rw [hid1, hcr1] at h1
  have hid2 : saveId (saveSequence t1 n d1 g1 l1 store).1 n = store.nextSeqId := by
    simp [saveId, h1]
  have hcr2 : saveCreatedAt (saveSequence t1 n d1 g1 l1 store).1 n t2 = t1 := by
    simp [saveCreatedAt, h1]
  rw [h2, hid2, hcr2]

theorem C3_resave_replaces_witness :
    getSequence (saveSequence (π := Unit) 7 "s" "d2" "g2" [⟨"press_key", ()⟩]
        (saveSequence 3 "s" "d1" "g1" [⟨"navigate", ()⟩, ⟨"hover", ()⟩]
          (Store.empty Unit)).1).1 "s" =
      some ⟨1, "s", "d2", "g2", 3, 7, outActions 0 [⟨"press_key", ()⟩]⟩ :=
  C3_resave_replaces (Store.empty Unit) "s" "d1" "g1" "d2" "g2"
    [⟨"navigate", ()⟩, ⟨"hover", ()⟩] [⟨"press_key", ()⟩] 3 7 rfl

theorem not_isEmpty_filter_eq_any {α : Type} (p : α → Bool) (l : List α) :
    (!(l.filter p).isEmpty) = l.any p := by
  induction l with
  | nil => rfl
  | cons a l ih =>
    by_cases h : p a = true
    · simp [List.filter_cons, h]
    · simp [List.filter_cons, h, ih]

/-- C4: `deleteSequence` reports `true` exactly when a sequence row named
`n` existed; afterwards `getSequence n` finds nothing, and no action row
of any deleted sequence survives (the schema's `ON DELETE CASCADE`). -/
theorem C4_delete_cascades {π : Type} (s : Store π) (n : String) :
    ((deleteSequence n s).2 = s.sequences.any (fun r => r.name == n)) ∧
    getSequence (deleteSequence n s).1 n = none ∧
    (∀ a, a ∈ (deleteSequence n s).1.seqActions → ∀ r, r ∈ s.sequences →
      r.name = n → ¬a.sequenceId = r.id) := by
  refine ⟨?_, ?_, ?_⟩
  · exact not_isEmpty_filter_eq_any _ s.sequences
  · have hnone : findSeq (deleteSequence n s).1 n = none := by
      apply List.find?_eq_none.mpr
      intro x hx
      have := (List.mem_filter.mp hx).2
      simpa using this
    simp only [getSequence, hnone]
  · intro a ha r hr hname heq
    have hcond := (List.mem_filter.mp ha).2
    rw [Bool.not_eq_true', List.any_eq_false] at hcond
    have hrdel : r ∈ s.sequences.filter (fun x => x.name == n) :=
      List.mem_filter.mpr ⟨hr, by simp [hname]⟩
    have := hcond r hrdel
    simp [heq] at this

theorem C4_delete_cascades_witness :
    ((deleteSequence "s" storeW).2 = true) ∧
    getSequence (deleteSequence "s" storeW).1 "s" = none ∧
    (deleteSequence "s" storeW).1.seqActions = [] := by
  have h := C4_delete_cascades storeW "s"
  refine ⟨by rw [h.1]; decide, h.2.1, by decide⟩

/-- C5 counterexample: `saveSequence` contains no name validation at all
and no `ValidationError` exists anywhere in the source.  Called with the
empty name it happily creates a sequence row named `""` (the SQLite
`NOT NULL`/`UNIQUE` constraints do not reject the empty string), stores
its actions, and `getSequence ""` retrieves them. -/
theorem C5_counterexample :
    ((saveSequence (π := Unit) 0 "" "d" "g" [⟨"navigate", ()⟩]
        (Store.empty Unit)).1 ≠ Store.empty Unit) ∧
    getSequence (saveSequence (π := Unit) 0 "" "d" "g" [⟨"navigate", ()⟩]
        (Store.empty Unit)).1 "" =
      some ⟨1, "", "d", "g", 0, 0, [⟨"navigate", (), 1⟩]⟩ := by
  decide

/-- C5 (amended): an empty name is treated like any other name: the call
does not fail, it upserts a sequence row under `""` and returns it with
the given actions. -/
theorem C5_no_validation {π : Type} (store : Store π) (t : Nat) (d g : String)
    (l : List (ActionIn π)) (hfresh : findSeq store "" = none) :
    (saveSequence t "" d g l store).2 =
      some ⟨store.nextSeqId, "", d, g, t, t, outActions 0 l⟩ := by
  have h := (saveSequence_spec t "" d g l store).2.2
  rw [h]
  simp [saveId, saveCreatedAt, hfresh]

theorem C5_no_validation_witness :
    (saveSequence (π := Unit) 4 "" "d" "g" [⟨"hover", ()⟩] (Store.empty Unit)).2 =
      some ⟨1, "", "d", "g", 4, 4, outActions 0 [⟨"hover", ()⟩]⟩ :=
  C5_no_validation (Store.empty Unit) 4 "d" "g" [⟨"hover", ()⟩] rfl

/-! ## Sequence-executor claims (C6, C7) -/

theorem runLoop_ok_initial {π : Type} (drv : Nat → String → π → Except String String)
    (rr : String → String → String → String) (toS : π → String)
    (ofS : String → Option π) (iA : Nat → Bool) (vars : List (String × String))
    (n : String) (qr : Nat → π × String) :
    ∀ (pre : List (ActionOut π)) (i0 : Nat) (suf : List (ActionOut π))
      (store : Store π) (res : List String) (comp : Nat),
      (∀ j, j < pre.length → iA (i0 + j) = false) →
      (∀ j (h : j < pre.length),
        stepSub rr toS ofS vars (pre.get ⟨j, h⟩) = some (qr (i0 + j)).1 ∧
        executeActionM drv (i0 + j) (pre.get ⟨j, h⟩).toolName (qr (i0 + j)).1 =
          Except.ok (qr (i0 + j)).2) →
      runLoop drv rr toS ofS iA vars n (pre ++ suf) i0 store res comp =
        runLoop drv rr toS ofS iA vars n suf (i0 + pre.length)
          { store with history := okRows n qr i0 pre ++ store.history }
          (res ++ okResults qr i0 pre) (comp + pre.length) := by
  intro pre
  induction pre with
  | nil =>
    intro i0 suf store res comp _ _
    simp [okRows, okResults]
  | cons a pre ih =>
    intro i0 suf store res comp hiA hstep
    have hiA0 : iA i0 = false := by simpa using hiA 0 (by simp)
    have hstep0 := hstep 0 (by simp)
    simp only [List.get, Nat.add_zero] at hstep0
    rw [List.cons_append]
    simp only [runLoop, hiA0, Bool.false_eq_true, if_false, hstep0.1, hstep0.2]
    have hiA1 : ∀ j, j < pre.length → iA (i0 + 1 + j) = false := by
      intro j hj
      have := hiA (j + 1) (by simpa using Nat.succ_lt_succ hj)
      rwa [show i0 + (j + 1) = i0 + 1 + j by omega] at this
    have hstep1 : ∀ j (h : j < pre.length),
        stepSub rr toS ofS vars (pre.get ⟨j, h⟩) = some (qr (i0 + 1 + j)).1 ∧
        executeActionM drv (i0 + 1 + j) (pre.get ⟨j, h⟩).toolName (qr (i0 + 1 + j)).1 =
          Except.ok (qr (i0 + 1 + j)).2 := by
      intro j h
      have := hstep (j + 1) (by simpa using Nat.succ_lt_succ h)
      simp only [List.get] at this
      rwa [show i0 + (j + 1) = i0 + 1 + j by omega] at this
    rw [ih (i0 + 1) suf _ _ _ hiA1 hstep1]
    congr 1
    · simp only [List.length_cons]
      omega
    · simp only [logExecution, okRows]
      congr 1
      rw [List.append_assoc]
      rfl
    · simp only [okResults]
      rw [List.append_assoc]
      rfl
    · simp only [List.length_cons]
      omega

/-- C6: the interrupt flag is examined only at the boundary check before
each step.  With a request pending at the check before step `k := pre.length`
(all earlier checks clear, all earlier steps succeeding), the run clears
the flag and the running marker, appends exactly one `INTERRUPTED`
history row carrying the completed-step count on top of the `k` success
rows, and returns the interrupted outcome with `completedSteps = k` and
the per-step results so far.  The right-hand side mentions the driver at
no index at all and the hypotheses constrain it only at indices `< k`,
so the step at the interrupt boundary is never dispatched; conversely a
request arriving while step `k-1` is in flight (modelled as pending at
check `k`) never aborts that step: its success row and result are
retained in full. -/
theorem C6_interrupt_boundary {π : Type} (drv : Nat → String → π → Except String String)
    (rr : String → String → String → String) (toS : π → String) (ofS : String → Option π)
    (iA : Nat → Bool) (vars : List (String × String)) (store : Store π) (rs : RunState)
    (name : String) (qr : Nat → π × String) (seq : SeqOut π)
    (pre : List (ActionOut π)) (b : ActionOut π) (suf : List (ActionOut π))
    (hseq : getSequence store name = some seq)
    (hacts : seq.actions = pre ++ b :: suf)
    (hiA : ∀ j, j < pre.length → iA j = false)
    (hk : iA pre.length = true)
    (hstep : ∀ j (h : j < pre.length),
      stepSub rr toS ofS vars (pre.get ⟨j, h⟩) = some (qr j).1 ∧
      executeActionM drv j (pre.get ⟨j, h⟩).toolName (qr j).1 = Except.ok (qr j).2) :
    runSequence drv rr toS ofS iA store rs name vars =
      ({ store with history :=
          ⟨some name, "INTERRUPTED", .interrupted pre.length, false,
            some "User interrupted sequence"⟩ :: (okRows name qr 0 pre ++ store.history) },
       ⟨none, false⟩,
       .interrupted pre.length (okResults qr 0 pre)) := by
  unfold runSequence
  rw [hseq]
  show runLoop drv rr toS ofS iA vars name seq.actions 0 store [] 0 = _
  rw [hacts]
  rw [runLoop_ok_initial drv rr toS ofS iA vars name qr pre 0 (b :: suf) store [] 0
    (fun j hj => by simpa using hiA j hj)
    (fun j h => by simpa using hstep j h)]
  simp only [Nat.zero_add, List.nil_append]
  simp only [runLoop, hk, if_true]
  rfl

/-- C7: when the boundary call of step `k+1` (1-based; `k = pre.length`)
fails — including by an unrecognised tool name, which `executeAction`
turns into the same kind of per-step failure (second conjunct) — the run
logs exactly one failure history row carrying the error message on top
of the `k` success rows, clears the running marker, and returns the
failed outcome with `completedSteps = k` and the accumulated results.
The right-hand side is independent of the driver beyond index `k`, so
none of the remaining steps is attempted. -/
theorem C7_failure_stops {π : Type} (drv : Nat → String → π → Except String String)
    (rr : String → String → String → String) (toS : π → String) (ofS : String → Option π)
    (iA : Nat → Bool) (vars : List (String × String)) (store : Store π) (rs : RunState)
    (name : String) (qr : Nat → π × String) (seq : SeqOut π)
    (pre : List (ActionOut π)) (b : ActionOut π) (suf : List (ActionOut π))
    (qf : π) (m : String)
    (hseq : getSequence store name = some seq)
    (hacts : seq.actions = pre ++ b :: suf)
    (hiA : ∀ j, j ≤ pre.length → iA j = false)
    (hstep : ∀ j (h : j < pre.length),
      stepSub rr toS ofS vars (pre.get ⟨j, h⟩) = some (qr j).1 ∧
      executeActionM drv j (pre.get ⟨j, h⟩).toolName (qr j).1 = Except.ok (qr j).2)
    (hsub : stepSub rr toS ofS vars b = some qf)
    (hfail : executeActionM drv pre.length b.toolName qf = Except.error m) :
    (runSequence drv rr toS ofS iA store rs name vars =
      ({ store with history :=
          ⟨some name, b.toolName, .params qf, false, some m⟩ ::
            (okRows name qr 0 pre ++ store.history) },
       ⟨none, false⟩,
       .failed pre.length (okResults qr 0 pre ++ ["✗ " ++ b.toolName ++ ": " ++ m]))) ∧
    (∀ i tool p, knownTools.contains tool = false →
      executeActionM drv i tool p = Except.error ("Unknown action: " ++ tool)) := by
  constructor
  · unfold runSequence
    rw [hseq]
    show runLoop drv rr toS ofS iA vars name seq.actions 0 store [] 0 = _
    rw [hacts]
    rw [runLoop_ok_initial drv rr toS ofS iA vars name qr pre 0 (b :: suf) store [] 0
      (fun j hj => by simpa using hiA j (Nat.le_of_lt hj))
      (fun j h => by simpa using hstep j h)]
    simp only [Nat.zero_add, List.nil_append]
    have hkA : iA pre.length = false := hiA pre.length (Nat.le_refl _)
    simp only [runLoop, hkA, Bool.false_eq_true, if_false, hsub, hfail]
    rfl
  · intro i tool p htool
    unfold executeActionM
    rw [htool]
    simp

theorem C6_interrupt_boundary_witness :
    runSequence (π := Unit) (fun _ _ _ => Except.ok "done") (fun _ _ s => s) (fun _ => "p")
        (fun _ => some ()) (fun i => i == 1) storeW2 ⟨none, false⟩ "s" [] =
      ({ storeW2 with history :=
          ⟨some "s", "INTERRUPTED", .interrupted 1, false, some "User interrupted sequence"⟩ ::
            (okRows "s" (fun _ => ((), "done")) 0 [⟨"navigate", (), 1⟩] ++ storeW2.history) },
       ⟨none, false⟩,
       .interrupted 1 (okResults (fun _ => ((), "done")) 0 [⟨"navigate", (), 1⟩])) :=
  @C6_interrupt_boundary Unit (fun _ _ _ => Except.ok "done") (fun _ _ s => s)
    (fun _ => "p") (fun _ => some ()) (fun i => i == 1) [] storeW2 ⟨none, false⟩ "s"
    (fun _ => ((), "done"))
    ⟨1, "s", "d", "g", 0, 0, [⟨"navigate", (), 1⟩, ⟨"bogus", (), 2⟩]⟩
    [⟨"navigate", (), 1⟩] ⟨"bogus", (), 2⟩ [] (by decide) rfl (by decide) rfl
    (by
      intro j h
      simp only [List.length_cons, List.length_nil] at h
      interval_cases j
      exact ⟨rfl, rfl⟩)

theorem C7_failure_stops_witness :
    runSequence (π := Unit) (fun _ _ _ => Except.ok "done") (fun _ _ s => s) (fun _ => "p")
        (fun _ => some ()) (fun _ => false) storeW2 ⟨none, false⟩ "s" [] =
      ({ storeW2 with history :=
          ⟨some "s", "bogus", .params (), false, some "Unknown action: bogus"⟩ ::
            (okRows "s" (fun _ => ((), "done")) 0 [⟨"navigate", (), 1⟩] ++ storeW2.history) },
       ⟨none, false⟩,
       .failed 1 (okResults (fun _ => ((), "done")) 0 [⟨"navigate", (), 1⟩] ++
         ["✗ bogus: Unknown action: bogus"])) :=
  (@C7_failure_stops Unit (fun _ _ _ => Except.ok "done") (fun _ _ s => s)
    (fun _ => "p") (fun _ => some ()) (fun _ => false) [] storeW2 ⟨none, false⟩ "s"
    (fun _ => ((), "done"))
    ⟨1, "s", "d", "g", 0, 0, [⟨"navigate", (), 1⟩, ⟨"bogus", (), 2⟩]⟩
    [⟨"navigate", (), 1⟩] ⟨"bogus", (), 2⟩ [] () "Unknown action: bogus"
    (by decide) rfl (fun _ _ => rfl)
    (by
      intro j h
      simp only [List.length_cons, List.length_nil] at h
      interval_cases j
      exact ⟨rfl, rfl⟩)
    rfl rfl).1

/-! ## Variable-substitution claim (C8) -/

/-- C8 counterexample: the source builds the replacement regex as
`new RegExp("\x7b\x7b" + key + "\x7d\x7d", "g")` without escaping the key, so a key
containing a regex metacharacter is *not* replaced textually.  With the
variable mapping `\x7b "a|b": "X" \x7d`, the compiled regex is the alternation
`\x7b\x7ba|b\x7d\x7d`, and the serialized blob `JSON.stringify(\x7btext:"b\x7d\x7d"\x7d)` —
which contains no `\x7b\x7b...\x7d\x7d` placeholder at all — is nevertheless
rewritten (its `b\x7d\x7d` substring matches), violating both the claimed
global *textual* replace and the claimed identity on placeholder-free
parameters. -/
theorem C8_counterexample :
    jsIncludes blobC doubleBrace = false ∧
    substituteParams rrAltAB (fun s => s) some [("a|b", "X")] blobC =
      some "\x7b\"text\":\"X\"\x7d" ∧
    ¬substituteParams rrAltAB (fun s => s) some [("a|b", "X")] blobC = some blobC := by
  decide

/-- C8 (amended): for variable names the regex engine treats literally
(no metacharacters) and values without `$` escape sequences — captured by
the hypothesis that each per-key replacement behaves as the literal
global replace — the substitution is exactly the spec's serialize,
global-textual-replace, parse-back pipeline; placeholders of keys not in
the mapping are untouched (a blob containing none of the supplied
placeholders is returned verbatim), and parameters whose serialization
contains no `\x7b\x7b` at all are returned unchanged for every variable
mapping. -/
theorem C8_textual_substitution {π : Type} (toS : π → String) (ofS : String → Option π)
    (rr : String → String → String → String) (vars : List (String × String)) (p : π)
    (hlit : ∀ kv ∈ vars, ∀ s, rr (placeholder kv.1) kv.2 s =
      replaceAllStr (placeholder kv.1) kv.2 s)
    (hrt : ofS (toS p) = some p) :
    substituteParams rr toS ofS vars p = ofS (substituteBlobSpec vars (toS p)) ∧
    ((∀ kv ∈ vars, jsIncludes (toS p) (placeholder kv.1) = false) →
      substituteParams rr toS ofS vars p = some p) ∧
    (jsIncludes (toS p) doubleBrace = false →
      substituteParams rr toS ofS vars p = some p) := by
  refine ⟨?_, ?_, ?_⟩
  · unfold substituteParams
    rw [substituteBlob_eq_spec rr vars (toS p) hlit]
  · intro h
    unfold substituteParams
    rw [substituteBlob_id rr vars (toS p) hlit h, hrt]
  · intro h
    unfold substituteParams
    rw [substituteBlob_id rr vars (toS p) hlit
      (fun kv _ => jsIncludes_placeholder_of_doubleBrace kv.1 h), hrt]

theorem C8_textual_substitution_witness :
    substituteParams replaceAllStr (fun s : String => s) some [("u", "alice")] "hello" =
      some "hello" :=
  (C8_textual_substitution (fun s : String => s) some replaceAllStr [("u", "alice")]
    "hello" (fun _ _ s => rfl) rfl).2.2 (by decide)

end Mcp
